import Mathlib

/-!
Shallow embedding of the `noleak` goroutine-leak matcher library.

Go strings are modelled as `List Char`; the helpers `goIndex` and `goTrim`
embed `strings.Index` and `strings.Trim` from the Go standard library, as
used by `IgnoringTopFunction` in `ignoring_top_function.go`.
-/

/-- `strings.Index s substr`: index of the first instance of `substr`
in `s`, or `-1` if `substr` is not present in `s`. -/
def goIndex : List Char → List Char → Int
  | [], substr => if substr.isEmpty then 0 else -1
  | c :: rest, substr =>
    if substr.isPrefixOf (c :: rest) then 0
    else
      let r := goIndex rest substr
      if r < 0 then -1 else r + 1

/-- `strings.Trim s cutset`: `s` with all leading and trailing characters
contained in `cutset` removed. -/
def goTrim (s cutset : List Char) : List Char :=
  ((s.dropWhile (fun c => cutset.contains c)).reverse.dropWhile
    (fun c => cutset.contains c)).reverse

/-- A parsed goroutine record (package `goroutine`), as used by the matcher
and exercised by the tests in src. -/
structure Goroutine where
  ID : Nat := 0
  State : List Char := []
  TopFunction : List Char := []
  Backtrace : List Char := []
  CreatorFunction : List Char := []
  CreatorLocation : List Char := []
  deriving DecidableEq, Repr

/-- The matcher built by `IgnoringTopFunction` (ignoring_top_function.go,
lines 63-67). -/
structure ignoringTopFunctionMatcher where
  expectedTopFunction : List Char := []
  expectedState : List Char := []
  matchPrefix : Bool := false
  deriving DecidableEq, Repr

/-- The dynamically-typed `actual interface\x7b\x7d` value handed to
`Match`: either a `Goroutine` record or some other value, represented by
its rendered description. -/
inductive Actual where
  | goroutine : Goroutine → Actual
  | other : List Char → Actual
  deriving DecidableEq, Repr

/-- Modelled from the spec: the helper `G` (declared elsewhere in the
repository, absent from src/) converts the actual value into a Task Record
and otherwise reports an error that names the calling matcher. -/
def G (actual : Actual) (matchername : List Char) :
    Except (List Char) Goroutine :=
  match actual with
  | .goroutine g => .ok g
  | .other desc =>
      .error (matchername ++ " matcher expects a goroutine.  Got: ".toList
        ++ desc)

/-- `IgnoringTopFunction` (ignoring_top_function.go, lines 41-60): parses a
filter spec string into a matcher. -/
def IgnoringTopFunction (topfn : List Char) : ignoringTopFunctionMatcher :=
  let brIndex := goIndex topfn ['[']
  if 0 ≤ brIndex then
    { expectedTopFunction := goTrim (topfn.take brIndex.toNat) [' ']
      expectedState := goTrim (topfn.drop brIndex.toNat) ['[', ']'] }
  else if ['.', '.', '.'].isSuffixOf topfn then
    { expectedTopFunction := topfn.take (topfn.length - 3 + 1)
      matchPrefix := true }
  else
    { expectedTopFunction := topfn }

/-- `ignoringTopFunctionMatcher.Match` (ignoring_top_function.go, lines
71-86). Returns the success flag and the optional error. -/
def ignoringTopFunctionMatcher.Match (matcher : ignoringTopFunctionMatcher)
    (actual : Actual) : Bool × Option (List Char) :=
  match G actual "IgnoringTopFunction".toList with
  | .error err => (false, some err)
  | .ok g =>
    if matcher.matchPrefix then
      (matcher.expectedTopFunction.isPrefixOf g.TopFunction, none)
    else if g.TopFunction ≠ matcher.expectedTopFunction then
      (false, none)
    else if matcher.expectedState = [] then
      (true, none)
    else
      (matcher.expectedState.isPrefixOf g.State, none)

/-- `Match` again, threading the receiver through each `return` statement:
the Go method never assigns to a receiver field, so every exit returns the
receiver it was given. Used to state that matching leaves the matcher's
stored configuration untouched. -/
def ignoringTopFunctionMatcher.MatchThreaded
    (matcher : ignoringTopFunctionMatcher) (actual : Actual) :
    ignoringTopFunctionMatcher × Bool × Option (List Char) :=
  match G actual "IgnoringTopFunction".toList with
  | .error err => (matcher, false, some err)
  | .ok g =>
    if matcher.matchPrefix then
      (matcher, matcher.expectedTopFunction.isPrefixOf g.TopFunction, none)
    else if g.TopFunction ≠ matcher.expectedTopFunction then
      (matcher, false, none)
    else if matcher.expectedState = [] then
      (matcher, true, none)
    else
      (matcher, matcher.expectedState.isPrefixOf g.State, none)

/-- `strings.HasPrefix`-style literal stripper: when `lit` is a prefix of
`s`, return the remainder of `s` after `lit`. -/
def stripLit (lit s : List Char) : Option (List Char) :=
  if lit.isPrefixOf s then some (s.drop lit.length) else none

/-- Value of a decimal digit string (most significant digit first). -/
def digitsVal (ds : List Char) : Nat :=
  ds.foldl (fun acc c => 10 * acc + (c.toNat - '0'.toNat)) 0

/-- Modelled from the spec: the goroutine header parser (function `new` of
package goroutine; its code is absent from src/, only its tests are
present). A header line has the fixed shape `goroutine <id> [<state>]:`
with `<id>` a decimal unsigned integer; parsing recovers the numeric ID
and the verbatim state and fails with a descriptive message on any line
not of that shape. -/
def parseHeader (line : List Char) : Except (List Char) (Nat × List Char) :=
  match stripLit "goroutine ".toList line with
  | none => .error ("invalid stack header: ".toList ++ line)
  | some rest =>
    let ds := rest.takeWhile Char.isDigit
    let rest2 := rest.dropWhile Char.isDigit
    if ds.isEmpty then .error ("invalid stack header ID: ".toList ++ line)
    else
      match stripLit " [".toList rest2 with
      | none => .error ("invalid stack header: ".toList ++ line)
      | some rest3 =>
        if "]:".toList.isSuffixOf rest3 then
          .ok (digitsVal ds, rest3.dropLast.dropLast)
        else .error ("invalid stack header: ".toList ++ line)

/-- Split a text into its lines at newline characters. -/
def splitLines : List Char → List (List Char)
  | [] => [[]]
  | c :: rest =>
    let r := splitLines rest
    if c = '\n' then [] :: r
    else
      match r with
      | [] => [[c]]
      | h :: t => (c :: h) :: t

/-- A location line of a creator block is indented by a tab or space. -/
def isIndented (l : List Char) : Bool :=
  match l with
  | [] => false
  | c :: _ => c = '\t' || c = ' '

/-- Strip the indentation of a location line. -/
def trimIndent (l : List Char) : List Char :=
  l.dropWhile (fun c => c = '\t' || c = ' ')

/-- A well-formed creator location has the shape `<path>:<line>` with a
nonempty decimal line number. -/
def locOk (loc : List Char) : Bool :=
  let ds := loc.reverse.takeWhile Char.isDigit
  !ds.isEmpty &&
    (match loc.reverse.drop ds.length with
     | ':' :: _ => true
     | _ => false)

/-- One candidate creator block: a `created by <function>` line followed by
an indented location line whose first field is a well-formed
`<path>:<line>` location. -/
def creatorOfPair (l1 l2 : List Char) : Option (List Char × List Char) :=
  match stripLit "created by ".toList l1 with
  | none => none
  | some fn =>
    if fn.isEmpty then none
    else if isIndented l2 then
      let loc := (trimIndent l2).takeWhile (fun c => c ≠ ' ')
      if locOk loc then some (fn, loc) else none
    else none

/-- Scan consecutive line pairs for the trailing (last) creator block. -/
def scanCreator : List (List Char) → Option (List Char × List Char)
  | [] => none
  | [_] => none
  | l1 :: l2 :: rest =>
    match scanCreator (l2 :: rest) with
    | some r => some r
    | none => creatorOfPair l1 l2

/-- Modelled from the spec: creator extraction (`findCreator`, absent from
src/, only its tests are present). Scans the full per-task text for a
trailing `created by <function>` line immediately followed by an indented
`<path>:<line> ...` location line; both must be present and well-formed
together, else both creator fields resolve to empty — a best-effort
enrichment that never fails. -/
def findCreator (text : List Char) : List Char × List Char :=
  match scanCreator (splitLines text) with
  | some r => r
  | none => ([], [])

/-- A filter argument handed to the `HaveLeaked` constructor: a textual
filter spec, a baseline collection of Task Records, a matcher, or an
unsupported value such as a plain integer. -/
inductive FilterArg where
  | text : List Char → FilterArg
  | records : List Goroutine → FilterArg
  | matcher : ignoringTopFunctionMatcher → FilterArg
  | intVal : Int → FilterArg

/-- An accepted filter of the Leak Matching Engine. -/
inductive LeakFilter where
  | fromText : ignoringTopFunctionMatcher → LeakFilter
  | fromRecords : List Goroutine → LeakFilter
  | fromMatcher : ignoringTopFunctionMatcher → LeakFilter

/-- Decimal rendering of an integer. -/
def intDec (i : Int) : List Char :=
  if i < 0 then '-' :: Nat.toDigits 10 i.natAbs else Nat.toDigits 10 i.toNat

/-- Modelled from the spec: the filter-argument validation of the
`HaveLeaked` constructor (absent from src/, only its tests are present).
Each argument must be a textual spec, a collection of Task Records, or a
matcher; any other type is a construction-time fatal configuration error
naming the received type and value (message shape taken from the test in
src). -/
def classifyFilterArg : FilterArg → Except (List Char) LeakFilter
  | .text s => .ok (.fromText (IgnoringTopFunction s))
  | .records gs => .ok (.fromRecords gs)
  | .matcher m => .ok (.fromMatcher m)
  | .intVal i =>
      .error
        ("HaveLeaked expected a string, []Goroutine, or GomegaMatcher, but got:\n    <int>: ".toList
          ++ intDec i)

/-- Modelled from the spec: construction of the `HaveLeaked` matcher from
its filter arguments; validation happens here, at construction time. -/
def HaveLeaked (args : List FilterArg) : Except (List Char) (List LeakFilter) :=
  args.foldr
    (fun a acc =>
      match classifyFilterArg a with
      | .error e => .error e
      | .ok f =>
        match acc with
        | .error e => .error e
        | .ok fs => .ok (f :: fs))
    (.ok [])

theorem goIndex_single_of_not_mem (c : Char) (s : List Char) (h : c ∉ s) :
    goIndex s [c] = -1 := by
  induction s with
  | nil => simp [goIndex]
  | cons a rest ih =>
    simp only [List.mem_cons, not_or] at h
    simp [goIndex, List.isPrefixOf, h.1, ih h.2]

theorem goIndex_single_append (c : Char) (l rest : List Char) (h : c ∉ l) :
    goIndex (l ++ c :: rest) [c] = l.length := by
  induction l with
  | nil => simp [goIndex, List.isPrefixOf]
  | cons a t ih =>
    simp only [List.mem_cons, not_or] at h
    have hv := ih h.2
    simp [goIndex, List.isPrefixOf, h.1, hv]

theorem dropWhile_mem_eq_self (cutset l : List Char)
    (h : ∀ c, l.head? = some c → c ∉ cutset) :
    (l.dropWhile fun d => cutset.contains d) = l := by
  cases l with
  | nil => rfl
  | cons a t => simp [List.dropWhile_cons, h a rfl]

theorem goTrim_append_single (s : List Char) (c : Char) (cutset : List Char)
    (hc : c ∈ cutset)
    (h1 : ∀ d, s.head? = some d → d ∉ cutset)
    (h2 : ∀ d, s.getLast? = some d → d ∉ cutset) :
    goTrim (s ++ [c]) cutset = s := by
  cases s with
  | nil => simp [goTrim, List.dropWhile_cons, hc]
  | cons x xs =>
    have hx : x ∉ cutset := h1 x rfl
    have e1 : ((x :: xs ++ [c]).dropWhile fun d => cutset.contains d)
        = x :: xs ++ [c] := by
      simp [List.dropWhile_cons, hx]
    have e2 : ((x :: xs ++ [c]).reverse.dropWhile fun d => cutset.contains d)
        = (x :: xs).reverse := by
      have hrev : (x :: xs ++ [c]).reverse = c :: (x :: xs).reverse := by
        rw [show (x :: xs ++ [c]) = (x :: xs) ++ [c] from rfl,
          List.reverse_append]
        rfl
      rw [hrev, List.dropWhile_cons_of_pos (by simp [hc])]
      apply dropWhile_mem_eq_self
      intro d hd
      rw [List.head?_reverse] at hd
      exact h2 d hd
    unfold goTrim
    rw [e1, e2, List.reverse_reverse]

theorem goTrim_wrap (a b : Char) (s cutset : List Char)
    (ha : a ∈ cutset) (hb : b ∈ cutset)
    (h1 : ∀ d, s.head? = some d → d ∉ cutset)
    (h2 : ∀ d, s.getLast? = some d → d ∉ cutset) :
    goTrim (a :: (s ++ [b])) cutset = s := by
  cases s with
  | nil => simp [goTrim, List.dropWhile_cons, ha, hb]
  | cons x xs =>
    have hx : x ∉ cutset := h1 x rfl
    have e1 : ((a :: (x :: xs ++ [b])).dropWhile fun d => cutset.contains d)
        = x :: xs ++ [b] := by
      simp [List.dropWhile_cons, ha, hx]
    have e2 : ((x :: xs ++ [b]).reverse.dropWhile fun d => cutset.contains d)
        = (x :: xs).reverse := by
      have hrev : (x :: xs ++ [b]).reverse = b :: (x :: xs).reverse := by
        rw [show (x :: xs ++ [b]) = (x :: xs) ++ [b] from rfl,
          List.reverse_append]
        rfl
      rw [hrev, List.dropWhile_cons_of_pos (by simp [hb])]
      apply dropWhile_mem_eq_self
      intro d hd
      rw [List.head?_reverse] at hd
      exact h2 d hd
    unfold goTrim
    rw [e1, e2, List.reverse_reverse]

/-- Construction result for a `name...` spec whose name holds no bracket:
the ellipsis branch of `IgnoringTopFunction` keeps one trailing dot. -/
theorem ctor_ellipsis (name : List Char) (h : '[' ∉ name) :
    IgnoringTopFunction (name ++ ['.', '.', '.']) =
      { expectedTopFunction := name ++ ['.'], matchPrefix := true } := by
  have hbr : goIndex (name ++ ['.', '.', '.']) ['['] = -1 := by
    apply goIndex_single_of_not_mem
    simp only [List.mem_append, not_or]
    exact ⟨h, by decide⟩
  have hsuf : (['.', '.', '.'].isSuffixOf (name ++ ['.', '.', '.'])) = true := by
    rw [List.isSuffixOf_iff_suffix]
    exact List.suffix_append _ _
  simp only [IgnoringTopFunction, hbr, hsuf]
  norm_num
  have hsplit : name ++ ['.', '.', '.'] = (name ++ ['.']) ++ ['.', '.'] := by
    simp
  rw [hsplit, List.take_left' (by simp)]

/-- Construction result for a spec holding a bracket: everything before the
first bracket, trimmed of spaces, becomes the expected top function; the
remainder, trimmed of brackets, becomes the expected state. -/
theorem ctor_bracket (pre post : List Char) (h : '[' ∉ pre) :
    IgnoringTopFunction (pre ++ '[' :: post) =
      { expectedTopFunction := goTrim pre [' '],
        expectedState := goTrim ('[' :: post) ['[', ']'] } := by
  have hidx : goIndex (pre ++ '[' :: post) ['['] = pre.length :=
    goIndex_single_append '[' pre post h
  simp only [IgnoringTopFunction, hidx]
  have h0 : (0 : Int) ≤ pre.length := Int.natCast_nonneg _
  rw [if_pos h0]
  simp only [Int.toNat_natCast, List.take_left, List.drop_left]

/-- Construction result for a plain spec: no bracket, no ellipsis suffix. -/
theorem ctor_plain (s : List Char) (h1 : '[' ∉ s)
    (h2 : (['.', '.', '.'].isSuffixOf s) = false) :
    IgnoringTopFunction s = { expectedTopFunction := s } := by
  have hidx := goIndex_single_of_not_mem '[' s h1
  simp only [IgnoringTopFunction, hidx, h2]
  norm_num

theorem Match_prefix_eval (etf : List Char) (g : Goroutine) :
    ignoringTopFunctionMatcher.Match
      { expectedTopFunction := etf, matchPrefix := true } (.goroutine g)
      = (etf.isPrefixOf g.TopFunction, none) := rfl

theorem Match_exact_iff (etf est : List Char) (g : Goroutine) :
    (ignoringTopFunctionMatcher.Match
      { expectedTopFunction := etf, expectedState := est }
      (.goroutine g)).1 = true
    ↔ g.TopFunction = etf ∧ est.isPrefixOf g.State = true := by
  by_cases heq : g.TopFunction = etf
  · by_cases hst : est = []
    · subst hst
      simp [ignoringTopFunctionMatcher.Match, G, heq, List.isPrefixOf]
    · simp [ignoringTopFunctionMatcher.Match, G, heq, hst]
  · simp [ignoringTopFunctionMatcher.Match, G, heq]

/-- C1: for a `name...` filter spec (with a bracket-free name), the matcher
matches a Task Record iff the record's TopFunction extends `name` past a
dot separator; in particular `foo.bar...` does not match `foo.bar` itself,
matches `foo.bar.baz`, and does not match `foo.barbaz`. -/
theorem C1_ellipsis_matching (name : List Char) (g : Goroutine)
    (h : '[' ∉ name) :
    ((((IgnoringTopFunction (name ++ ['.', '.', '.'])).Match
        (.goroutine g)).1 = true
      ↔ ∃ rest, g.TopFunction = name ++ ['.'] ++ rest)
    ∧ ((IgnoringTopFunction "foo.bar...".toList).Match
        (.goroutine { TopFunction := "foo.bar".toList })).1 = false
    ∧ ((IgnoringTopFunction "foo.bar...".toList).Match
        (.goroutine { TopFunction := "foo.bar.baz".toList })).1 = true
    ∧ ((IgnoringTopFunction "foo.bar...".toList).Match
        (.goroutine { TopFunction := "foo.barbaz".toList })).1 = false) := by
  refine ⟨?_, by decide, by decide, by decide⟩
  rw [ctor_ellipsis name h, Match_prefix_eval]
  rw [show ((name ++ ['.']).isPrefixOf g.TopFunction, (none : Option (List Char))).1
      = (name ++ ['.']).isPrefixOf g.TopFunction from rfl]
  rw [List.isPrefixOf_iff_prefix]
  constructor
  · rintro ⟨t, ht⟩
    exact ⟨t, ht.symm⟩
  · rintro ⟨t, ht⟩
    exact ⟨t, ht.symm⟩

/-- Witness for C1 at the spec `foo.bar...` and a record whose TopFunction
is `foo.bar.baz`. -/
theorem C1_ellipsis_matching_witness :
    ((IgnoringTopFunction ("foo.bar".toList ++ ['.', '.', '.'])).Match
      (.goroutine { TopFunction := "foo.bar.baz".toList })).1 = true :=
  (C1_ellipsis_matching "foo.bar".toList
    { TopFunction := "foo.bar.baz".toList } (by decide)).1.mpr
    ⟨"baz".toList, by decide⟩

/-- C2: for a `name [state]` filter spec (bracket-free name without
surrounding spaces, state not delimited by brackets), the matcher matches
a Task Record iff the record's TopFunction equals `name` and its State
starts with `state`. -/
theorem C2_state_matching (name state : List Char) (g : Goroutine)
    (hbr : '[' ∉ name)
    (hh : name.head? ≠ some ' ') (hl : name.getLast? ≠ some ' ')
    (hs1 : state.head? ≠ some '[') (hs2 : state.head? ≠ some ']')
    (hs3 : state.getLast? ≠ some '[') (hs4 : state.getLast? ≠ some ']') :
    ((IgnoringTopFunction (name ++ [' ', '['] ++ state ++ [']'])).Match
        (.goroutine g)).1 = true
    ↔ g.TopFunction = name ∧ state.isPrefixOf g.State = true := by
  have hsp : name ++ [' ', '['] ++ state ++ [']']
      = (name ++ [' ']) ++ '[' :: (state ++ [']']) := by simp
  have hpre : '[' ∉ name ++ [' '] := by
    simp only [List.mem_append, List.mem_singleton, not_or]
    exact ⟨hbr, by decide⟩
  have htf : goTrim (name ++ [' ']) [' '] = name := by
    apply goTrim_append_single
    · exact List.mem_singleton.mpr rfl
    · intro d hd hmem
      rw [List.mem_singleton] at hmem
      subst hmem
      exact hh hd
    · intro d hd hmem
      rw [List.mem_singleton] at hmem
      subst hmem
      exact hl hd
  have hst : goTrim ('[' :: (state ++ [']'])) ['[', ']'] = state := by
    apply goTrim_wrap
    · decide
    · decide
    · intro d hd hmem
      simp only [List.mem_cons, List.mem_singleton, List.not_mem_nil,
        or_false] at hmem
      rcases hmem with hmem | hmem <;> subst hmem
      · exact hs1 hd
      · exact hs2 hd
    · intro d hd hmem
      simp only [List.mem_cons, List.mem_singleton, List.not_mem_nil,
        or_false] at hmem
      rcases hmem with hmem | hmem <;> subst hmem
      · exact hs3 hd
      · exact hs4 hd
  rw [hsp, ctor_bracket _ _ hpre, htf, hst]
  exact Match_exact_iff name state g

/-- Witness for C2 at the spec `foo [run]` and a record whose TopFunction
is `foo` and whose State is `running`: the partial state prefix `run`
matches the state `running`. -/
theorem C2_state_matching_witness :
    ((IgnoringTopFunction ("foo".toList ++ [' ', '['] ++ "run".toList
        ++ [']'])).Match
      (.goroutine
        { TopFunction := "foo".toList, State := "running".toList })).1
      = true :=
  (C2_state_matching "foo".toList "run".toList
    { TopFunction := "foo".toList, State := "running".toList }
    (by decide) (by decide) (by decide) (by decide) (by decide) (by decide)
    (by decide)).mpr ⟨by decide, by decide⟩

/-- C3 counterexample: the spec string `fo[o` ends in neither `...` nor
`]`, so it contains no ellipsis suffix and no bracketed suffix, yet the
matcher built from it does not match a record whose TopFunction equals the
whole spec string: the construction branches on any bracket occurrence,
not only on a bracketed suffix. -/
theorem C3_counterexample :
    (['.', '.', '.'].isSuffixOf "fo[o".toList) = false
    ∧ "fo[o".toList.getLast? ≠ some ']'
    ∧ ((IgnoringTopFunction "fo[o".toList).Match
        (.goroutine { TopFunction := "fo[o".toList })).1 = false := by
  refine ⟨by decide, by decide, by decide⟩

/-- C3 (amended): for every filter spec string containing no bracket
character and no ellipsis suffix, the matcher matches a Task Record iff
the record's TopFunction equals the spec string, regardless of its
State. -/
theorem C3_plain_matching (s : List Char) (g : Goroutine)
    (h1 : '[' ∉ s) (h2 : (['.', '.', '.'].isSuffixOf s) = false) :
    ((IgnoringTopFunction s).Match (.goroutine g)).1 = true
    ↔ g.TopFunction = s := by
  rw [ctor_plain s h1 h2]
  have h := Match_exact_iff s [] g
  simpa [List.isPrefixOf] using h

/-- Witness for C3 at the plain spec `main.main` and a record with that
TopFunction and a nonempty State. -/
theorem C3_plain_matching_witness :
    ((IgnoringTopFunction "main.main".toList).Match
      (.goroutine
        { TopFunction := "main.main".toList, State := "running".toList })).1
      = true :=
  (C3_plain_matching "main.main".toList
    { TopFunction := "main.main".toList, State := "running".toList }
    (by decide) (by decide)).mpr (by decide)

/-- C4 counterexample: for the spec `foo [ run ]` the construction trims
only brackets — not spaces — from the bracketed text, so the expected
state keeps its surrounding spaces instead of being `run`. -/
theorem C4_counterexample :
    (IgnoringTopFunction "foo [ run ]".toList).expectedState
      = " run ".toList
    ∧ (IgnoringTopFunction "foo [ run ]".toList).expectedState
      ≠ "run".toList := by
  refine ⟨by decide, by decide⟩

/-- C4 (amended): a filter spec with a bracketed suffix produces the
state-qualified exact variant whose expected top-function name is the text
before the bracket with surrounding spaces removed, and whose expected
state is the bracketed text with surrounding brackets (only) removed. -/
theorem C4_bracket_construction (pre post : List Char) (h : '[' ∉ pre) :
    IgnoringTopFunction (pre ++ '[' :: post) =
      { expectedTopFunction := goTrim pre [' '],
        expectedState := goTrim ('[' :: post) ['[', ']'],
        matchPrefix := false } :=
  ctor_bracket pre post h

/-- Witness for C4 at the spec `foo [run]`, evaluating both trims. -/
theorem C4_bracket_construction_witness :
    (IgnoringTopFunction ("foo ".toList ++ '[' :: "run]".toList) =
      { expectedTopFunction := goTrim "foo ".toList [' '],
        expectedState := goTrim ('[' :: "run]".toList) ['[', ']'],
        matchPrefix := false })
    ∧ goTrim "foo ".toList [' '] = "foo".toList
    ∧ goTrim ('[' :: "run]".toList) ['[', ']'] = "run".toList :=
  ⟨C4_bracket_construction "foo ".toList "run]".toList (by decide),
    by decide, by decide⟩

/-- C5: matching never inspects the Backtrace (nor the ID or creator
fields): any two Task Records agreeing on TopFunction and State receive
the identical match result from every matcher. -/
theorem C5_match_ignores_backtrace (m : ignoringTopFunctionMatcher)
    (g1 g2 : Goroutine)
    (hTop : g1.TopFunction = g2.TopFunction) (hSt : g1.State = g2.State) :
    m.Match (.goroutine g1) = m.Match (.goroutine g2) := by
  simp only [ignoringTopFunctionMatcher.Match, G]
  rw [hTop, hSt]

/-- Witness for C5: two records with equal TopFunction and State but
different Backtrace and ID fields produce the same match result. -/
theorem C5_match_ignores_backtrace_witness :
    ignoringTopFunctionMatcher.Match (IgnoringTopFunction "foo".toList)
      (.goroutine
        { TopFunction := "foo".toList, State := "running".toList, Backtrace := "foo()".toList })
    = ignoringTopFunctionMatcher.Match (IgnoringTopFunction "foo".toList)
      (.goroutine
        { ID := 42, TopFunction := "foo".toList, State := "running".toList, Backtrace := "bar()".toList }) :=
  C5_match_ignores_backtrace (IgnoringTopFunction "foo".toList) _ _ rfl rfl

/-- C6: matching is deterministic and side-effect free: the threaded
evaluation hands the matcher back unchanged, re-running it on that
returned matcher yields the identical result, and its result coincides
with the pure `Match`. -/
theorem C6_match_pure (m : ignoringTopFunctionMatcher) (a : Actual) :
    (m.MatchThreaded a).1 = m
    ∧ ((m.MatchThreaded a).1).MatchThreaded a = m.MatchThreaded a
    ∧ (m.MatchThreaded a).2 = m.Match a := by
  have h1 : (m.MatchThreaded a).1 = m := by
    cases a with
    | goroutine g =>
      simp only [ignoringTopFunctionMatcher.MatchThreaded, G]
      split_ifs <;> rfl
    | other desc => rfl
  refine ⟨h1, by rw [h1], ?_⟩
  cases a with
  | goroutine g =>
    simp only [ignoringTopFunctionMatcher.MatchThreaded,
      ignoringTopFunctionMatcher.Match, G]
    split_ifs <;> rfl
  | other desc => rfl

/-- C9: supplying an integer filter argument to the `HaveLeaked`
constructor is rejected at construction time with a fatal configuration
error naming the received type and value; at the concrete argument `42`
the message is exactly the one recorded in the test. -/
theorem C9_unsupported_filter_arg (i : Int) (rest : List FilterArg) :
    HaveLeaked (FilterArg.intVal i :: rest)
      = .error
        ("HaveLeaked expected a string, []Goroutine, or GomegaMatcher, but got:\n    <int>: ".toList
          ++ intDec i)
    ∧ HaveLeaked [FilterArg.intVal 42]
      = .error
        "HaveLeaked expected a string, []Goroutine, or GomegaMatcher, but got:\n    <int>: 42".toList := by
  exact ⟨rfl, rfl⟩

/-- C10: matching an actual value that is not a Task Record returns false
together with a non-nil error that names the matcher; on Task Records the
match never produces an error. -/
theorem C10_non_goroutine_actual (m : ignoringTopFunctionMatcher)
    (desc : List Char) (g : Goroutine) :
    m.Match (.other desc)
      = (false, some ("IgnoringTopFunction".toList
          ++ " matcher expects a goroutine.  Got: ".toList ++ desc))
    ∧ (m.Match (.other desc)).2 ≠ none
    ∧ "IgnoringTopFunction".toList.isPrefixOf
        ((m.Match (.other desc)).2.getD []) = true
    ∧ (m.Match (.goroutine g)).2 = none := by
  refine ⟨rfl, by simp [ignoringTopFunctionMatcher.Match, G], ?_, ?_⟩
  · rw [show (m.Match (.other desc)).2.getD []
        = "IgnoringTopFunction".toList
          ++ (" matcher expects a goroutine.  Got: ".toList ++ desc)
      from rfl]
    rw [List.isPrefixOf_iff_prefix]
    exact List.prefix_append _ _
  · simp only [ignoringTopFunctionMatcher.Match, G]
    split_ifs <;> rfl

theorem stripLit_eq_some_iff (lit s r : List Char) :
    stripLit lit s = some r ↔ s = lit ++ r := by
  unfold stripLit
  by_cases h : lit.isPrefixOf s = true
  · rw [if_pos h]
    rw [List.isPrefixOf_iff_prefix] at h
    obtain ⟨t, ht⟩ := h
    subst ht
    rw [List.drop_left]
    constructor
    · intro h'
      injection h' with h''
      rw [h'']
    · intro h'
      have := List.append_cancel_left h'
      rw [this]
  · rw [if_neg h]
    constructor
    · intro h'
      cases h'
    · intro h'
      exact absurd (by rw [List.isPrefixOf_iff_prefix, h']
                       exact List.prefix_append _ _) h

theorem takeWhile_all_self (p : Char → Bool) (l : List Char) :
    (l.takeWhile p).all p = true := by
  induction l with
  | nil => rfl
  | cons a t ih =>
    rw [List.takeWhile_cons]
    by_cases h : p a = true
    · rw [if_pos h]
      simp [h, ih]
    · rw [if_neg h]
      rfl

theorem takeWhile_append_none (p : Char → Bool) (ds t : List Char)
    (hds : ds.all p = true)
    (ht : ∀ c, t.head? = some c → p c = false) :
    (ds ++ t).takeWhile p = ds := by
  induction ds with
  | nil =>
    simp only [List.nil_append]
    cases t with
    | nil => rfl
    | cons c cs => simp [List.takeWhile_cons, ht c rfl]
  | cons d ds ih =>
    simp only [List.all_cons, Bool.and_eq_true] at hds
    simp [List.takeWhile_cons, hds.1, ih hds.2]

theorem dropWhile_append_all (p : Char → Bool) (ds t : List Char)
    (hds : ds.all p = true)
    (ht : ∀ c, t.head? = some c → p c = false) :
    (ds ++ t).dropWhile p = t := by
  induction ds with
  | nil =>
    simp only [List.nil_append]
    cases t with
    | nil => rfl
    | cons c cs => simp [List.dropWhile_cons, ht c rfl]
  | cons d ds ih =>
    simp only [List.all_cons, Bool.and_eq_true] at hds
    simp [List.dropWhile_cons, hds.1, ih hds.2]

theorem dropLast_dropLast_append (s : List Char) :
    (s ++ [']', ':']).dropLast.dropLast = s := by
  rw [show s ++ [']', ':'] = (s ++ [']']) ++ [':'] from by
    rw [List.append_assoc]
    rfl]
  rw [List.dropLast_concat, List.dropLast_concat]

/-- C7: every line of the exact shape `goroutine <id> [<state>]:` (decimal
nonempty id) parses to exactly that id value and that verbatim state; the
parser returns a record only for lines of this shape, and every line is
either parsed or rejected with a descriptive error. -/
theorem C7_header_parsing :
    (∀ ds state : List Char,
      ds.isEmpty = false → ds.all Char.isDigit = true →
      parseHeader ("goroutine ".toList ++ ds ++ [' ', '['] ++ state
          ++ [']', ':'])
        = .ok (digitsVal ds, state))
    ∧ (∀ (line st : List Char) (n : Nat), parseHeader line = .ok (n, st) →
        ∃ ds : List Char, ds.isEmpty = false ∧ ds.all Char.isDigit = true
          ∧ n = digitsVal ds
          ∧ line = "goroutine ".toList ++ ds ++ [' ', '['] ++ st
              ++ [']', ':'])
    ∧ (∀ line : List Char, (∃ v, parseHeader line = .ok v)
        ∨ (∃ msg, parseHeader line = .error msg)) := by
  refine ⟨?_, ?_, ?_⟩
  · intro ds state hne hdig
    have hstrip : stripLit "goroutine ".toList
        ("goroutine ".toList ++ ds ++ [' ', '['] ++ state ++ [']', ':'])
        = some (ds ++ ([' ', '['] ++ (state ++ [']', ':']))) := by
      rw [stripLit_eq_some_iff]
      simp [List.append_assoc]
    have hhead : ∀ c : Char,
        ([' ', '['] ++ (state ++ [']', ':'])).head? = some c →
        Char.isDigit c = false := by
      intro c hc
      rw [show ([' ', '['] ++ (state ++ [']', ':'])).head? = some ' '
        from rfl] at hc
      injection hc with hc
      subst hc
      decide
    have htake : (ds ++ ([' ', '['] ++ (state
        ++ [']', ':']))).takeWhile Char.isDigit = ds :=
      takeWhile_append_none _ _ _ hdig hhead
    have hdrop : (ds ++ ([' ', '['] ++ (state
        ++ [']', ':']))).dropWhile Char.isDigit
        = [' ', '['] ++ (state ++ [']', ':']) :=
      dropWhile_append_all _ _ _ hdig hhead
    have hstrip2 : stripLit " [".toList ([' ', '['] ++ (state ++ [']', ':']))
        = some (state ++ [']', ':']) := by
      rw [stripLit_eq_some_iff]
      rfl
    have hsuf : ("]:".toList.isSuffixOf (state ++ [']', ':'])) = true := by
      rw [List.isSuffixOf_iff_suffix]
      exact ⟨state, rfl⟩
    simp only [parseHeader, hstrip, htake, hdrop, hne, hstrip2, hsuf]
    simp [dropLast_dropLast_append]
  · intro line st n hok
    unfold parseHeader at hok
    cases h1 : stripLit "goroutine ".toList line with
    | none =>
      simp only [h1] at hok
      exact Except.noConfusion hok
    | some rest =>
      simp only [h1] at hok
      by_cases h2 : (rest.takeWhile Char.isDigit).isEmpty = true
      · simp [h2] at hok
      · rw [Bool.not_eq_true] at h2
        simp only [h2] at hok
        rw [if_neg Bool.false_ne_true] at hok
        cases h3 : stripLit " [".toList (rest.dropWhile Char.isDigit) with
        | none =>
          simp only [h3] at hok
          exact Except.noConfusion hok
        | some rest3 =>
          simp only [h3] at hok
          by_cases h4 : ("]:".toList.isSuffixOf rest3) = true
          · rw [if_pos h4] at hok
            injection hok with hok
            injection hok with hn hst
            refine ⟨rest.takeWhile Char.isDigit, h2,
              takeWhile_all_self _ _, hn.symm, ?_⟩
            have hline : line = "goroutine ".toList ++ rest :=
              (stripLit_eq_some_iff _ _ _).mp h1
            have hrest : rest = rest.takeWhile Char.isDigit
                ++ rest.dropWhile Char.isDigit :=
              (List.takeWhile_append_dropWhile _ _).symm
            have hrest2 : rest.dropWhile Char.isDigit = " [".toList ++ rest3 :=
              (stripLit_eq_some_iff _ _ _).mp h3
            have hsfx : ∃ t, t ++ "]:".toList = rest3 := by
              rw [List.isSuffixOf_iff_suffix] at h4
              exact h4
            obtain ⟨t, ht⟩ := hsfx
            have ht' : rest3 = t ++ [']', ':'] := by
              rw [← ht]
              rfl
            have hst' : st = t := by
              rw [← hst, ht', dropLast_dropLast_append]
            rw [hline, hst']
            conv_lhs => rw [hrest]
            rw [hrest2, ht',
              show " [".toList = [' ', '['] from rfl]
            simp [List.append_assoc]
          · rw [if_neg h4] at hok
            exact Except.noConfusion hok
  · intro line
    cases hp : parseHeader line with
    | ok v => exact Or.inl ⟨v, rfl⟩
    | error msg => exact Or.inr ⟨msg, rfl⟩

/-- Witness for C7: the test header `goroutine 666 [running]:` parses to
ID 666 and state `running`; a parsed line is recovered as grammatical; and
the malformed line `a b` is classified. -/
theorem C7_header_parsing_witness :
    (parseHeader ("goroutine ".toList ++ "666".toList ++ [' ', '[']
        ++ "running".toList ++ [']', ':'])
      = .ok (digitsVal "666".toList, "running".toList))
    ∧ digitsVal "666".toList = 666
    ∧ (∃ ds : List Char, ds.isEmpty = false ∧ ds.all Char.isDigit = true
        ∧ 1 = digitsVal ds
        ∧ "goroutine 1 [x]:".toList = "goroutine ".toList ++ ds
            ++ [' ', '['] ++ "x".toList ++ [']', ':'])
    ∧ ((∃ v, parseHeader "a b".toList = .ok v)
        ∨ (∃ msg, parseHeader "a b".toList = .error msg)) :=
  ⟨C7_header_parsing.1 "666".toList "running".toList (by decide) (by decide),
    by decide,
    C7_header_parsing.2.1 "goroutine 1 [x]:".toList "x".toList 1 (by rfl),
    C7_header_parsing.2.2 "a b".toList⟩

theorem creatorOfPair_nonempty (l1 l2 fn loc : List Char)
    (h : creatorOfPair l1 l2 = some (fn, loc)) : fn ≠ [] ∧ loc ≠ [] := by
  unfold creatorOfPair at h
  cases h1 : stripLit "created by ".toList l1 with
  | none =>
    simp only [h1] at h
    exact Option.noConfusion h
  | some fn' =>
    simp only [h1] at h
    by_cases h2 : fn'.isEmpty = true
    · simp [h2] at h
    · rw [Bool.not_eq_true] at h2
      simp only [h2] at h
      rw [if_neg Bool.false_ne_true] at h
      by_cases h3 : isIndented l2 = true
      · rw [if_pos h3] at h
        by_cases h4 : locOk ((trimIndent l2).takeWhile (fun c => c ≠ ' '))
            = true
        · rw [if_pos h4] at h
          injection h with h
          injection h with hfn hloc
          constructor
          · rw [← hfn]
            intro hc
            subst hc
            simp at h2
          · rw [← hloc]
            intro hc
            rw [hc] at h4
            exact absurd h4 (by decide)
        · rw [if_neg h4] at h
          exact Option.noConfusion h
      · rw [if_neg h3] at h
        exact Option.noConfusion h

theorem scanCreator_sound (ls : List (List Char)) (fn loc : List Char)
    (h : scanCreator ls = some (fn, loc)) :
    ∃ pre l1 l2 post, ls = pre ++ l1 :: l2 :: post
      ∧ creatorOfPair l1 l2 = some (fn, loc) := by
  induction ls with
  | nil => simp [scanCreator] at h
  | cons l1 rest ih =>
    cases rest with
    | nil => simp [scanCreator] at h
    | cons l2 rest2 =>
      cases hscan : scanCreator (l2 :: rest2) with
      | some r =>
        simp only [scanCreator, hscan] at h
        injection h with h
        subst h
        obtain ⟨pre, a, b, post, hls, hc⟩ := ih hscan
        exact ⟨l1 :: pre, a, b, post, by rw [hls]; rfl, hc⟩
      | none =>
        simp only [scanCreator, hscan] at h
        exact ⟨[], l1, l2, rest2, rfl, h⟩

/-- C8: creator extraction is total and all-or-nothing: for every per-task
text it either leaves both creator fields empty, or returns both nonempty
together, and then only because some `created by <function>` line is
immediately followed by an indented well-formed location line in the
text. -/
theorem C8_creator_extraction (text : List Char) :
    findCreator text = ([], [])
    ∨ ((findCreator text).1 ≠ [] ∧ (findCreator text).2 ≠ []
        ∧ ∃ pre l1 l2 post, splitLines text = pre ++ l1 :: l2 :: post
            ∧ creatorOfPair l1 l2 = some (findCreator text)) := by
  cases hscan : scanCreator (splitLines text) with
  | none =>
    left
    unfold findCreator
    rw [hscan]
  | some r =>
    right
    obtain ⟨fn, loc⟩ := r
    obtain ⟨pre, l1, l2, post, hls, hc⟩ :=
      scanCreator_sound (splitLines text) fn loc hscan
    have hne := creatorOfPair_nonempty l1 l2 fn loc hc
    have hfc : findCreator text = (fn, loc) := by
      unfold findCreator
      rw [hscan]
    rw [hfc]
    exact ⟨hne.1, hne.2, pre, l1, l2, post, hls, hc⟩
